import Mathlib

set_option autoImplicit false

/-!
Verification development for the `tempexporter` SDR tailing core (`src/sdr.rs`).

The embedding models:
* the JSON decoding performed by `serde_json::from_slice` for the two record
  shapes `RecordBase` and `RecordAcuriteTower` (bytes are `Nat` in 0..255;
  `f32` fields are modelled as exact rationals, which is faithful for the
  dyadic decimal values appearing in this development; `\uXXXX` escapes and
  non-ASCII bytes inside string literals are not modelled and no input in
  this development uses them);
* `parse` (sdr.rs lines 38-48), the two-stage envelope/record decode;
* the per-byte line reassembly and cache upsert of the read loop
  (sdr.rs lines 194-218), with the `BTreeMap<String, _>` cache modelled as a
  key-sorted association list;
* the initial seek policy, the EOF-time rotation check, and the supervisor
  restart loop.
-/

namespace TempExporter

/-! ## Bytes -/

/-- Byte sequence of a UTF-8/ASCII string (all inputs used here are ASCII). -/
def strBytes (s : String) : List Nat :=
  s.toList.map Char.toNat

/-! ## JSON values and the `serde_json` decode model -/

/-- JSON value. Numbers carry an `isInt` flag: `true` when the literal had
neither a fraction part nor an exponent, mirroring `serde_json`, which only
deserializes integer targets (`u64`, `i64`) from such literals. -/
inductive Json where
  | null
  | bool (b : Bool)
  | num (isInt : Bool) (v : Rat)
  | str (s : String)
  | arr (items : List Json)
  | obj (fields : List (String × Json))

/-- JSON whitespace bytes: space, tab, line feed, carriage return. -/
def isWs (b : Nat) : Bool :=
  b = 32 || b = 9 || b = 10 || b = 13

/-- Drop leading whitespace. -/
def skipWs : List Nat → List Nat
  | [] => []
  | b :: rest => if isWs b then skipWs rest else b :: rest

/-- ASCII digit test. -/
def isDigit (b : Nat) : Bool :=
  48 ≤ b && b ≤ 57

/-- Split a leading run of ASCII digits from the input. -/
def takeDigits : List Nat → List Nat × List Nat
  | [] => ([], [])
  | b :: rest =>
    if isDigit b then
      let (ds, r) := takeDigits rest
      (b :: ds, r)
    else ([], b :: rest)

/-- Numeric value of a digit run. -/
def digitsVal (ds : List Nat) : Nat :=
  ds.foldl (fun a b => a * 10 + (b - 48)) 0

/-- Parse an exponent part (after the `e`/`E`): optional sign, then digits.
Returns (exponent, sawExponent, rest). -/
def parseExpPart (input : List Nat) : Except String (Int × Bool × List Nat) :=
  let (negE, r) :=
    match input with
    | 45 :: r => (true, r)
    | 43 :: r => (false, r)
    | r => (false, r)
  match takeDigits r with
  | ([], _) => .error "invalid number: missing exponent digits"
  | (ds, r2) =>
    let e : Int := (digitsVal ds : Nat)
    .ok (if negE then -e else e, true, r2)

/-- Parse a JSON number literal: optional minus, integer part with no leading
zero, optional fraction, optional exponent. Returns (isInt, value, rest). -/
def parseNumber (input : List Nat) : Except String (Bool × Rat × List Nat) :=
  let (neg, r0) :=
    match input with
    | 45 :: r => (true, r)
    | r => (false, r)
  match takeDigits r0 with
  | ([], _) => .error "invalid number"
  | (d :: ds, r1) =>
    if d = 48 ∧ ds ≠ [] then .error "invalid number: leading zero" else
    let ip : Nat := digitsVal (d :: ds)
    let fracStep : Except String (Nat × Nat × Bool × List Nat) :=
      match r1 with
      | 46 :: r2 =>
        match takeDigits r2 with
        | ([], _) => .error "invalid number: missing fraction digits"
        | (fds, r3) => .ok (digitsVal fds, fds.length, true, r3)
      | _ => .ok (0, 0, false, r1)
    match fracStep with
    | .error m => .error m
    | .ok (fv, fl, hasFrac, r3) =>
      let expStep : Except String (Int × Bool × List Nat) :=
        match r3 with
        | 101 :: r4 => parseExpPart r4
        | 69 :: r4 => parseExpPart r4
        | _ => .ok (0, false, r3)
      match expStep with
      | .error m => .error m
      | .ok (ev, hasExp, r5) =>
        let base : Int := (ip * 10 ^ fl + fv : Nat)
        let sbase : Int := if neg then -base else base
        let v : Rat :=
          if 0 ≤ ev then mkRat (sbase * ((10 ^ ev.toNat : Nat) : Int)) (10 ^ fl)
          else mkRat sbase (10 ^ fl * 10 ^ (-ev).toNat)
        .ok (!hasFrac && !hasExp, v, r5)

/-- Parse the body of a JSON string literal (the opening quote already
consumed). Supports the simple escapes; returns the characters and the rest
of the input after the closing quote. -/
def parseStrBody : List Nat → Except String (List Char × List Nat)
  | [] => .error "EOF while parsing a string"
  | 34 :: rest => .ok ([], rest)
  | 92 :: e :: rest =>
    let c? : Except String Char :=
      if e = 34 then .ok (Char.ofNat 34)
      else if e = 92 then .ok (Char.ofNat 92)
      else if e = 47 then .ok (Char.ofNat 47)
      else if e = 110 then .ok (Char.ofNat 10)
      else if e = 116 then .ok (Char.ofNat 9)
      else if e = 114 then .ok (Char.ofNat 13)
      else if e = 98 then .ok (Char.ofNat 8)
      else if e = 102 then .ok (Char.ofNat 12)
      else .error "unsupported escape"
    match c? with
    | .error m => .error m
    | .ok c =>
      match parseStrBody rest with
      | .ok (cs, r) => .ok (c :: cs, r)
      | .error m => .error m
  | b :: rest =>
    if b < 32 then .error "control character in string"
    else if 128 ≤ b then .error "non-ASCII string content not modelled"
    else
      match parseStrBody rest with
      | .ok (cs, r) => .ok (Char.ofNat b :: cs, r)
      | .error m => .error m

/-- Parsing mode for the fuel-indexed recursive-descent JSON reader:
a single value, the items of an array, or the fields of an object. -/
inductive PMode where
  | val
  | arrItems (acc : List Json)
  | objFields (acc : List (String × Json))

/-- Fuel-indexed recursive-descent JSON reader. Byte 34 is a double quote,
91/93 are square brackets, 123/125 are curly braces, 44 comma, 58 colon. -/
def parseCore : Nat → PMode → List Nat → Except String (Json × List Nat)
  | 0, _, _ => .error "recursion limit exceeded"
  | Nat.succ fuel, PMode.val, input =>
    match skipWs input with
    | [] => .error "EOF while parsing a value"
    | 110 :: rest =>
      match rest with
      | 117 :: 108 :: 108 :: r => .ok (.null, r)
      | _ => .error "expected null"
    | 116 :: rest =>
      match rest with
      | 114 :: 117 :: 101 :: r => .ok (.bool true, r)
      | _ => .error "expected true"
    | 102 :: rest =>
      match rest with
      | 97 :: 108 :: 115 :: 101 :: r => .ok (.bool false, r)
      | _ => .error "expected false"
    | 34 :: rest =>
      match parseStrBody rest with
      | .ok (cs, r) => .ok (.str (String.mk cs), r)
      | .error m => .error m
    | 91 :: rest =>
      match skipWs rest with
      | 93 :: r => .ok (.arr [], r)
      | r2 => parseCore fuel (.arrItems []) r2
    | 123 :: rest =>
      match skipWs rest with
      | 125 :: r => .ok (.obj [], r)
      | r2 => parseCore fuel (.objFields []) r2
    | other =>
      match parseNumber other with
      | .ok (isInt, v, r) => .ok (.num isInt v, r)
      | .error m => .error m
  | Nat.succ fuel, PMode.arrItems acc, input =>
    match parseCore fuel .val input with
    | .error m => .error m
    | .ok (v, rest) =>
      match skipWs rest with
      | 44 :: r => parseCore fuel (.arrItems (acc ++ [v])) r
      | 93 :: r => .ok (.arr (acc ++ [v]), r)
      | _ => .error "expected comma or closing bracket"
  | Nat.succ fuel, PMode.objFields acc, input =>
    match skipWs input with
    | 34 :: rest =>
      match parseStrBody rest with
      | .error m => .error m
      | .ok (cs, r1) =>
        match skipWs r1 with
        | 58 :: r2 =>
          match parseCore fuel .val r2 with
          | .error m => .error m
          | .ok (v, r3) =>
            let acc2 := acc ++ [(String.mk cs, v)]
            match skipWs r3 with
            | 44 :: r4 => parseCore fuel (.objFields acc2) r4
            | 125 :: r4 => .ok (.obj acc2, r4)
            | _ => .error "expected comma or closing brace"
        | _ => .error "expected colon"
    | _ => .error "expected object key"

/-- Model of `serde_json::from_slice`'s syntactic stage: one JSON value
followed only by whitespace. -/
def jsonFromSlice (buf : List Nat) : Except String Json :=
  match parseCore (buf.length + 8) .val buf with
  | .error m => .error m
  | .ok (v, rest) =>
    match skipWs rest with
    | [] => .ok v
    | _ => .error "trailing characters"

/-- Look up a field of a JSON object by key (first occurrence). -/
def getField (fs : List (String × Json)) (k : String) : Option Json :=
  match fs with
  | [] => none
  | (k2, v) :: rest => if k2 = k then some v else getField rest k

/-- Require a field of a JSON object; missing fields are a decode error,
as in serde. -/
def reqField (fs : List (String × Json)) (k : String) : Except String Json :=
  match getField fs k with
  | some v => .ok v
  | none => .error ("missing field " ++ k)

/-- Deserialize a `String` field. -/
def asString : Json → Except String String
  | .str s => .ok s
  | _ => .error "invalid type: expected string"

/-- Deserialize a `u64` field: an integer literal in `[0, 2^64)`. -/
def asU64 : Json → Except String Nat
  | .num true v =>
    if 0 ≤ v.num ∧ v.num < 2 ^ 64 then .ok v.num.toNat
    else .error "invalid value: u64 out of range"
  | _ => .error "invalid type: expected u64"

/-- Deserialize an `i64` field: an integer literal in `[-2^63, 2^63)`. -/
def asI64 : Json → Except String Int
  | .num true v =>
    if -(2 ^ 63) ≤ v.num ∧ v.num < 2 ^ 63 then .ok v.num
    else .error "invalid value: i64 out of range"
  | _ => .error "invalid type: expected i64"

/-- Deserialize an `f32` field: any JSON number, kept as an exact rational
(faithful for the dyadic decimal values used in this development). -/
def asF32 : Json → Except String Rat
  | .num _ v => .ok v
  | _ => .error "invalid type: expected f32"

/-! ## The record types of `src/sdr.rs` -/

/-- Mirrors `RecordBase` (sdr.rs lines 17-22): the generic envelope with the
`model` discriminator. -/
structure RecordBase where
  time : String
  model : String
deriving DecidableEq

/-- Mirrors `RecordAcuriteTower` (sdr.rs lines 24-36). `u64` ids are `Nat`
(range-checked at decode time), `i64` is `Int`, `f32` is `Rat`. -/
structure RecordAcuriteTower where
  time : String
  model : String
  id : Nat
  channel : String
  battery_ok : Int
  temperature_C : Rat
  humidity : Rat
  mic : String
deriving DecidableEq

/-- Model of `serde_json::from_slice::<RecordBase>`. -/
def recordBaseFromSlice (buf : List Nat) : Except String RecordBase :=
  match jsonFromSlice buf with
  | .error m => .error m
  | .ok (.obj fs) => do
    let t ← asString (← reqField fs "time")
    let m ← asString (← reqField fs "model")
    .ok { time := t, model := m }
  | .ok _ => .error "invalid type: expected object"

/-- Model of `serde_json::from_slice::<RecordAcuriteTower>`. -/
def recordAcuriteFromSlice (buf : List Nat) : Except String RecordAcuriteTower :=
  match jsonFromSlice buf with
  | .error m => .error m
  | .ok (.obj fs) => do
    let t ← asString (← reqField fs "time")
    let m ← asString (← reqField fs "model")
    let i ← asU64 (← reqField fs "id")
    let ch ← asString (← reqField fs "channel")
    let bat ← asI64 (← reqField fs "battery_ok")
    let temp ← asF32 (← reqField fs "temperature_C")
    let hum ← asF32 (← reqField fs "humidity")
    let mic ← asString (← reqField fs "mic")
    .ok { time := t, model := m, id := i, channel := ch, battery_ok := bat,
          temperature_C := temp, humidity := hum, mic := mic }
  | .ok _ => .error "invalid type: expected object"

/-- Mirrors `parse` (sdr.rs lines 38-48): decode the envelope; a model other
than `Acurite-Tower` yields no record (not an error); otherwise decode the
full typed record. -/
def parse (buf : List Nat) : Except String (Option RecordAcuriteTower) :=
  match recordBaseFromSlice buf with
  | .error m => .error m
  | .ok rb =>
    if rb.model ≠ "Acurite-Tower" then .ok none
    else
      match recordAcuriteFromSlice buf with
      | .error m => .error m
      | .ok r => .ok (some r)

/-! ## Canonical id and the sensor state cache -/

/-- Mirrors the Rust format specifier for a `u64` in the id
(`5019` formats as `00005019`): zero-pad the decimal representation on the
left to width 8. -/
def zeroPad8 (n : Nat) : String :=
  let s := toString n
  String.mk (List.replicate (8 - s.length) (Char.ofNat 48)) ++ s

/-- Model of Rust `str::to_lowercase` as a per-character map
(it coincides with `Char.toLower` on ASCII, which covers every model and
channel value in this development). -/
def strToLower (s : String) : String :=
  String.mk (s.toList.map Char.toLower)

/-- Mirrors the id construction of the read loop (sdr.rs lines 202-207):
lowercased model, dash, zero-padded id, dash, lowercased channel. -/
def mkId (r : RecordAcuriteTower) : String :=
  strToLower r.model ++ "-" ++ zeroPad8 r.id ++ "-" ++ strToLower r.channel

/-- The `BTreeMap<String, RecordAcuriteTower>` cache, modelled as an
association list kept strictly sorted by key (`BTreeMap` stores and iterates
entries in ascending key order). -/
abbrev Cache := List (String × RecordAcuriteTower)

/-- Mirrors `BTreeMap::insert` on the sorted-association-list model:
replace the value at an existing key, otherwise insert at the key's sorted
position. -/
def insertSorted (k : String) (v : RecordAcuriteTower) : Cache → Cache
  | [] => [(k, v)]
  | (k2, v2) :: rest =>
    if k.toList < k2.toList then (k, v) :: (k2, v2) :: rest
    else if k = k2 then (k, v) :: rest
    else (k2, v2) :: insertSorted k v rest

/-- Well-formedness of the cache model: keys strictly ascending
(the `BTreeMap` representation invariant). -/
def SortedKeys (c : Cache) : Prop :=
  c.Pairwise (fun a b => a.1 < b.1)

/-- Mirrors the body of the newline branch of the read loop
(sdr.rs lines 199-212): parse the accumulated line; a full record is
upserted under its canonical id; no record or a parse error leaves the
cache unchanged. -/
def applyLine (c : Cache) (line : List Nat) : Cache :=
  match parse line with
  | .ok (some r) => insertSorted (mkId r) r c
  | .ok none => c
  | .error _ => c

/-- Mirrors one iteration of the byte scan (sdr.rs lines 194-218): a newline
byte (10) processes the accumulator and clears it; any other byte is pushed
onto the accumulator. State is (cache, accumulator). -/
def processByte (st : Cache × List Nat) (b : Nat) : Cache × List Nat :=
  if b = 10 then (applyLine st.1 st.2, [])
  else (st.1, st.2 ++ [b])

/-- Scan one chunk of read bytes through the per-byte loop. -/
def processChunk (c : Cache) (acc : List Nat) (bytes : List Nat) : Cache × List Nat :=
  bytes.foldl processByte (c, acc)

/-- Reassembler specification (follows the spec's words, for comparison with
`processChunk`): the completed lines flushed by the chunk, in order, each
excluding its terminator, together with the trailing unterminated bytes. -/
def scanSpec (acc : List Nat) : List Nat → List (List Nat) × List Nat
  | [] => ([], acc)
  | b :: rest =>
    if b = 10 then
      let (ls, fin) := scanSpec [] rest
      (acc :: ls, fin)
    else scanSpec (acc ++ [b]) rest

/-! ## File identity, initial seek, and the session step -/

/-- Stat result: device identifier, inode identifier, and size in bytes
(`md.dev()`, `md.ino()`, `md.len()`/`md.size()`). -/
structure Metadata where
  dev : Nat
  ino : Nat
  size : Nat
deriving DecidableEq

/-- Session-local tailing state: the identity captured at open, the current
byte offset, and the pending-line accumulator. -/
structure Session where
  dev : Nat
  ino : Nat
  pos : Nat
  accum : List Nat
deriving DecidableEq

/-- Model of `u64::checked_sub`. -/
def checkedSub (a b : Nat) : Option Nat :=
  if b ≤ a then some (a - b) else none

/-- Mirrors the initial seek policy (sdr.rs lines 123-133): a file longer
than 16 KiB starts 16 KiB from the end (via `checked_sub`, whose `unwrap`
panic is modelled as `none`); otherwise at the beginning. -/
def initialPos (len : Nat) : Option Nat :=
  if 16 * 1024 < len then checkedSub len (16 * 1024) else some 0

/-- Outcome of `File::open` plus the follow-up `metadata()` call. -/
inductive OpenResult where
  | ok (md : Metadata)
  | err (msg : String)

/-- Mirrors session setup (sdr.rs lines 107-141): a failed open ends the
attempt with an error; otherwise capture dev/ino, apply the initial seek
policy, and start with an empty accumulator. -/
def openSession (r : OpenResult) : Except String Session :=
  match r with
  | .err e => .error e
  | .ok md =>
    match initialPos md.size with
    | some p => .ok { dev := md.dev, ino := md.ino, pos := p, accum := [] }
    | none => .error "checked_sub underflow"

/-- Environment event for one iteration of the read loop: a read error, a
non-empty chunk of bytes, or EOF together with the outcome of the re-stat
(`none` when `std::fs::metadata` fails). -/
inductive TailEvent where
  | readErr (msg : String)
  | readData (bytes : List Nat)
  | readEof (st : Option Metadata)

/-- Outcome of one iteration of the read loop. -/
inductive StepOutcome where
  | streaming (s : Session) (c : Cache)
  | sleepPoll (secs : Nat) (s : Session) (c : Cache)
  | endedClean (c : Cache)
  | endedError (msg : String) (c : Cache)
deriving DecidableEq

/-- Mirrors one iteration of the read loop (sdr.rs lines 142-219). Data
advances the offset and scans the bytes; EOF runs the identity check
(sdr.rs lines 152-184): when the re-stat succeeds and the device or inode
changed or the offset exceeds the reported size, the session returns
cleanly; otherwise — the re-stat failing included — it sleeps the 1 s poll
interval and retries at the same offset. A read error ends the session with
that error. -/
def sessionStep (s : Session) (c : Cache) : TailEvent → StepOutcome
  | .readErr m => .endedError m c
  | .readData bytes =>
    let (c2, acc2) := processChunk c s.accum bytes
    .streaming { s with pos := s.pos + bytes.length, accum := acc2 } c2
  | .readEof st =>
    match st with
    | none => .sleepPoll 1 s c
    | some md =>
      let newFile :=
        decide (md.dev ≠ s.dev) || decide (md.ino ≠ s.ino) ||
          decide (md.size < s.pos)
      if newFile then .endedClean c else .sleepPoll 1 s c

/-! ## Snapshot (`SdrTail::values`) -/

/-- The data behind the mutex (sdr.rs lines 84-86). -/
structure Locked where
  current : Cache

/-- Mirrors `SdrTail::values` (sdr.rs lines 66-75) as a state transformer:
take the lock, clone every (id, record) pair out of the map in iteration
order, release the lock. Cloning is modelled as the identity on pure
values; the state component records that the call does not mutate. -/
def values (l : Locked) : List (String × RecordAcuriteTower) × Locked :=
  (l.current.map (fun p => (p.1, p.2)), l)

/-! ## Supervisor (`sdrtail_thread_noerr`) -/

/-- Result of one whole Tail Session as seen by the supervisor. -/
inductive SessionOutcome where
  | ok
  | err (msg : String)
deriving DecidableEq

/-- Observable supervisor event: running the n-th session (with its
outcome), or sleeping a backoff in seconds. -/
inductive SupEvent where
  | session (n : Nat) (o : SessionOutcome)
  | backoff (secs : Nat)
deriving DecidableEq

/-- Mirrors `sdrtail_thread_noerr` (sdr.rs lines 88-98): the trace of the
first `n` iterations of the supervisor loop, given the outcome of each
session. Every iteration runs one session and then sleeps 2 s,
unconditionally. -/
def supervisorTrace (f : Nat → SessionOutcome) : Nat → List SupEvent
  | 0 => []
  | n + 1 => supervisorTrace f n ++ [.session n (f n), .backoff 2]

/-! ## Concrete example lines -/

/-- First end-to-end example line: model `Acurite-Tower`, id 5019,
channel `C`, battery_ok 1, temperature 21.5, humidity 55. -/
def exLine1 : List Nat :=
  strBytes "\x7b\"time\":\"2024-01-01 00:00:00\",\"model\":\"Acurite-Tower\",\"id\":5019,\"channel\":\"C\",\"battery_ok\":1,\"temperature_C\":21.5,\"humidity\":55,\"mic\":\"CHECKSUM\"\x7d"

/-- Second end-to-end example line: same sensor, battery_ok 0,
temperature 22.0, humidity 56. -/
def exLine2 : List Nat :=
  strBytes "\x7b\"time\":\"2024-01-01 00:05:00\",\"model\":\"Acurite-Tower\",\"id\":5019,\"channel\":\"C\",\"battery_ok\":0,\"temperature_C\":22.0,\"humidity\":56,\"mic\":\"CHECKSUM\"\x7d"

/-- The record `exLine1` decodes to. -/
def exRec1 : RecordAcuriteTower :=
  { time := "2024-01-01 00:00:00", model := "Acurite-Tower", id := 5019,
    channel := "C", battery_ok := 1, temperature_C := mkRat 43 2,
    humidity := mkRat 55 1, mic := "CHECKSUM" }

/-- The record `exLine2` decodes to. -/
def exRec2 : RecordAcuriteTower :=
  { time := "2024-01-01 00:05:00", model := "Acurite-Tower", id := 5019,
    channel := "C", battery_ok := 0, temperature_C := mkRat 22 1,
    humidity := mkRat 56 1, mic := "CHECKSUM" }

/-- An example line whose envelope decodes but whose model is not the
supported one. -/
def exLineOther : List Nat :=
  strBytes "\x7b\"time\":\"t\",\"model\":\"Other\"\x7d"

/-- An example line whose envelope decodes with the supported model but
whose full record decode fails (missing fields). -/
def exLineTrunc : List Nat :=
  strBytes "\x7b\"time\":\"t\",\"model\":\"Acurite-Tower\"\x7d"

/-- An example line that is not JSON at all. -/
def exLineBad : List Nat :=
  strBytes "notjson"

/-! ## Helper lemmas -/

theorem key_lt_iff {s t : String} : s.toList < t.toList ↔ s < t :=
  String.lt_iff_toList_lt.symm

theorem mem_insertSorted {k : String} {v : RecordAcuriteTower} :
    ∀ {c : Cache} {x : String × RecordAcuriteTower},
      x ∈ insertSorted k v c → x = (k, v) ∨ x ∈ c
  | [], x, hx => by simpa [insertSorted] using hx
  | (k2, v2) :: rest, x, hx => by
    rw [insertSorted] at hx
    split_ifs at hx with h1 h2
    · rcases List.mem_cons.mp hx with h | h
      · exact Or.inl h
      · exact Or.inr h
    · rcases List.mem_cons.mp hx with h | h
      · exact Or.inl h
      · exact Or.inr (List.mem_cons_of_mem _ h)
    · rcases List.mem_cons.mp hx with h | h
      · exact Or.inr (h ▸ List.mem_cons_self _ _)
      · rcases mem_insertSorted h with h' | h'
        · exact Or.inl h'
        · exact Or.inr (List.mem_cons_of_mem _ h')

theorem insertSorted_mem_self {k : String} {v : RecordAcuriteTower} :
    ∀ {c : Cache}, (k, v) ∈ insertSorted k v c
  | [] => by simp [insertSorted]
  | (k2, v2) :: rest => by
    rw [insertSorted]
    split_ifs with h1 h2
    · exact List.mem_cons_self _ _
    · exact List.mem_cons_self _ _
    · exact List.mem_cons_of_mem _ insertSorted_mem_self

theorem insertSorted_mem_other {k : String} {v : RecordAcuriteTower}
    {k2 : String} {w : RecordAcuriteTower} (hne : k2 ≠ k) :
    ∀ {c : Cache}, (k2, w) ∈ insertSorted k v c ↔ (k2, w) ∈ c
  | [] => by simp [insertSorted, hne]
  | (k3, v3) :: rest => by
    rw [insertSorted]
    split_ifs with h1 h2
    · simp [hne]
    · constructor
      · intro hx
        rcases List.mem_cons.mp hx with h | h
        · exact absurd (congrArg Prod.fst h) hne
        · exact List.mem_cons_of_mem _ h
      · intro hx
        rcases List.mem_cons.mp hx with h | h
        · exact absurd ((Prod.mk.injEq ..).mp h).1 (h2 ▸ hne)
        · exact List.mem_cons_of_mem _ h
    · constructor
      · intro hx
        rcases List.mem_cons.mp hx with h | h
        · exact h ▸ List.mem_cons_self _ _
        · exact List.mem_cons_of_mem _ ((insertSorted_mem_other hne).mp h)
      · intro hx
        rcases List.mem_cons.mp hx with h | h
        · exact h ▸ List.mem_cons_self _ _
        · exact List.mem_cons_of_mem _ ((insertSorted_mem_other hne).mpr h)

theorem insertSorted_sorted {k : String} {v : RecordAcuriteTower} :
    ∀ {c : Cache}, SortedKeys c → SortedKeys (insertSorted k v c)
  | [], _ => by simp [insertSorted, SortedKeys]
  | (k2, v2) :: rest, h => by
    obtain ⟨hhead, htail⟩ := List.pairwise_cons.mp h
    rw [insertSorted]
    split_ifs with h1 h2
    · refine List.pairwise_cons.mpr ⟨?_, h⟩
      intro a ha
      rcases List.mem_cons.mp ha with hha | hha
      · exact hha ▸ key_lt_iff.mp h1
      · exact lt_trans (key_lt_iff.mp h1) (hhead a hha)
    · refine List.pairwise_cons.mpr ⟨?_, htail⟩
      intro a ha
      exact h2 ▸ hhead a ha
    · have hk2k : k2 < k := by
        rcases lt_trichotomy k k2 with hlt | heq | hgt
        · exact absurd (key_lt_iff.mpr hlt) h1
        · exact absurd heq h2
        · exact hgt
      refine List.pairwise_cons.mpr ⟨?_, insertSorted_sorted htail⟩
      intro a ha
      rcases mem_insertSorted ha with h' | h'
      · exact h' ▸ hk2k
      · exact hhead a h'

theorem sortedKeys_unique :
    ∀ {c : Cache}, SortedKeys c →
      ∀ {k : String} {w w2 : RecordAcuriteTower}, (k, w) ∈ c → (k, w2) ∈ c → w = w2
  | [], _, _, _, _, hw, _ => absurd hw (List.not_mem_nil _)
  | (k3, v3) :: rest, h, k, w, w2, hw, hw2 => by
    obtain ⟨hhead, htail⟩ := List.pairwise_cons.mp h
    rcases List.mem_cons.mp hw with h1 | h1 <;> rcases List.mem_cons.mp hw2 with h2 | h2
    · have e1 := (Prod.mk.injEq ..).mp h1
      have e2 := (Prod.mk.injEq ..).mp h2
      exact e1.2.trans e2.2.symm
    · exfalso
      have hk : k3 = k := ((Prod.mk.injEq ..).mp h1).1.symm
      exact absurd (hk ▸ hhead _ h2) (lt_irrefl k)
    · exfalso
      have hk : k3 = k := ((Prod.mk.injEq ..).mp h2).1.symm
      exact absurd (hk ▸ hhead _ h1) (lt_irrefl k)
    · exact sortedKeys_unique htail h1 h2

theorem sortedKeys_ext :
    ∀ (c1 c2 : Cache), SortedKeys c1 → SortedKeys c2 →
      (∀ kv, kv ∈ c1 ↔ kv ∈ c2) → c1 = c2
  | [], [], _, _, _ => rfl
  | [], y :: ys, _, _, hm =>
    absurd ((hm y).mpr (List.mem_cons_self y ys)) (List.not_mem_nil y)
  | x :: xs, [], _, _, hm =>
    absurd ((hm x).mp (List.mem_cons_self x xs)) (List.not_mem_nil x)
  | x :: xs, y :: ys, h1, h2, hm => by
    obtain ⟨hx1, hx2⟩ := List.pairwise_cons.mp h1
    obtain ⟨hy1, hy2⟩ := List.pairwise_cons.mp h2
    have hxy : x = y := by
      rcases List.mem_cons.mp ((hm x).mp (List.mem_cons_self x xs)) with h | h
      · exact h
      · have hyx : y.1 < x.1 := hy1 x h
        rcases List.mem_cons.mp ((hm y).mpr (List.mem_cons_self y ys)) with h' | h'
        · exact h'.symm
        · exact absurd (lt_trans (hx1 y h') hyx) (lt_irrefl _)
    subst hxy
    have htl : xs = ys := by
      apply sortedKeys_ext xs ys hx2 hy2
      intro kv
      constructor
      · intro hk
        rcases List.mem_cons.mp ((hm kv).mp (List.mem_cons_of_mem _ hk)) with h | h
        · exact absurd (h ▸ hx1 kv hk) (lt_irrefl _)
        · exact h
      · intro hk
        rcases List.mem_cons.mp ((hm kv).mpr (List.mem_cons_of_mem _ hk)) with h | h
        · exact absurd (h ▸ hy1 kv hk) (lt_irrefl _)
        · exact h
    rw [htl]

theorem processChunk_scanSpec :
    ∀ (bytes : List Nat) (c : Cache) (acc : List Nat),
      processChunk c acc bytes =
        ((scanSpec acc bytes).1.foldl applyLine c, (scanSpec acc bytes).2)
  | [], _, _ => rfl
  | b :: bytes, c, acc => by
    by_cases hb : b = 10
    · subst hb
      have step : processChunk c acc (10 :: bytes) =
          processChunk (applyLine c acc) [] bytes := rfl
      rw [step, processChunk_scanSpec bytes (applyLine c acc) []]
      simp [scanSpec]
    · have step : processChunk c acc (b :: bytes) =
          processChunk c (acc ++ [b]) bytes := by
        simp [processChunk, processByte, hb]
      rw [step, processChunk_scanSpec bytes c (acc ++ [b])]
      simp [scanSpec, hb]

theorem scanSpec_no_newline :
    ∀ (bytes acc : List Nat), 10 ∉ acc → 10 ∉ (scanSpec acc bytes).2
  | [], _, h => h
  | b :: bytes, acc, h => by
    by_cases hb : b = 10
    · subst hb
      simpa [scanSpec] using scanSpec_no_newline bytes [] (by simp)
    · have h' : (10 : Nat) ∉ acc ++ [b] := by
        intro hmem
        rcases List.mem_append.mp hmem with hh | hh
        · exact h hh
        · exact hb (List.mem_singleton.mp hh).symm
      simpa [scanSpec, hb] using scanSpec_no_newline bytes (acc ++ [b]) h'

theorem supervisorTrace_length (f : Nat → SessionOutcome) :
    ∀ n, (supervisorTrace f n).length = 2 * n
  | 0 => rfl
  | n + 1 => by
    rw [supervisorTrace]
    simp [supervisorTrace_length f n]
    omega

theorem supervisorTrace_getElem (f : Nat → SessionOutcome) :
    ∀ n k, k < n →
      (supervisorTrace f n)[2 * k]? = some (.session k (f k)) ∧
      (supervisorTrace f n)[2 * k + 1]? = some (.backoff 2)
  | 0, k, h => absurd h (Nat.not_lt_zero k)
  | n + 1, k, h => by
    have hlen := supervisorTrace_length f n
    rcases Nat.lt_succ_iff_lt_or_eq.mp h with h' | h'
    · have ih := supervisorTrace_getElem f n k h'
      rw [supervisorTrace]
      constructor
      · rw [List.getElem?_append_left (by omega)]
        exact ih.1
      · rw [List.getElem?_append_left (by omega)]
        exact ih.2
    · subst h'
      rw [supervisorTrace]
      constructor
      · rw [List.getElem?_append_right (by omega)]
        simp [hlen]
      · rw [List.getElem?_append_right (by omega)]
        have e1 : 2 * k + 1 - (supervisorTrace f k).length = 1 := by omega
        simp [e1]

theorem map_pair_eta : ∀ (c : Cache), c.map (fun p => (p.1, p.2)) = c
  | [] => rfl
  | (k, v) :: rest => by rw [List.map_cons, map_pair_eta rest]

/-! ## Claim theorems -/

set_option maxRecDepth 10000

/-- C1: every successfully parsed line of the supported model is stored under
the key lowercase(model) ++ "-" ++ the device id zero-padded to 8 digits ++
"-" ++ lowercase(channel); for model "Acurite-Tower", id 5019, channel "C"
that key is exactly "acurite-tower-00005019-c". -/
theorem parsed_line_cache_key (c : Cache) (buf : List Nat)
    (r : RecordAcuriteTower) (h : parse buf = .ok (some r)) :
    applyLine c buf = insertSorted (mkId r) r c
    ∧ mkId r = strToLower r.model ++ "-" ++ zeroPad8 r.id ++ "-" ++
        strToLower r.channel
    ∧ (r.model = "Acurite-Tower" → r.id = 5019 → r.channel = "C" →
        mkId r = "acurite-tower-00005019-c") := by
  refine ⟨by simp [applyLine, h], rfl, ?_⟩
  intro hm hi hc
  show strToLower r.model ++ "-" ++ zeroPad8 r.id ++ "-" ++
      strToLower r.channel = "acurite-tower-00005019-c"
  rw [hm, hi, hc]
  rfl

theorem parsed_line_cache_key_witness :
    parse exLine1 = .ok (some exRec1)
    ∧ applyLine [] exLine1 = insertSorted (mkId exRec1) exRec1 []
    ∧ mkId exRec1 = "acurite-tower-00005019-c" :=
  ⟨rfl, (parsed_line_cache_key [] exLine1 exRec1 rfl).1,
    (parsed_line_cache_key [] exLine1 exRec1 rfl).2.2 rfl rfl rfl⟩

/-- C2: at an EOF-time identity check, a successful re-stat reporting a
changed device, a changed inode, or a size strictly smaller than the
consumed offset ends the session cleanly; in every other case — the re-stat
failing included — the session sleeps the 1 s poll interval and retries at
the same offset with the same state. -/
theorem eof_identity_check (s : Session) (c : Cache) (md : Metadata) :
    ((md.dev ≠ s.dev ∨ md.ino ≠ s.ino ∨ md.size < s.pos) →
      sessionStep s c (.readEof (some md)) = .endedClean c)
    ∧ (md.dev = s.dev → md.ino = s.ino → s.pos ≤ md.size →
      sessionStep s c (.readEof (some md)) = .sleepPoll 1 s c)
    ∧ sessionStep s c (.readEof none) = .sleepPoll 1 s c := by
  refine ⟨?_, ?_, rfl⟩
  · intro h
    have hb : (decide (md.dev ≠ s.dev) || decide (md.ino ≠ s.ino) ||
        decide (md.size < s.pos)) = true := by
      rcases h with h | h | h <;> simp [h]
    show (if (decide (md.dev ≠ s.dev) || decide (md.ino ≠ s.ino) ||
        decide (md.size < s.pos)) = true then StepOutcome.endedClean c
      else StepOutcome.sleepPoll 1 s c) = StepOutcome.endedClean c
    rw [hb]
    exact if_pos rfl
  · intro h1 h2 h3
    have hb : (decide (md.dev ≠ s.dev) || decide (md.ino ≠ s.ino) ||
        decide (md.size < s.pos)) = false := by
      simp [h1, h2, Nat.not_lt.mpr h3]
    show (if (decide (md.dev ≠ s.dev) || decide (md.ino ≠ s.ino) ||
        decide (md.size < s.pos)) = true then StepOutcome.endedClean c
      else StepOutcome.sleepPoll 1 s c) = StepOutcome.sleepPoll 1 s c
    rw [hb]
    exact if_neg Bool.false_ne_true

theorem eof_identity_check_witness :
    sessionStep ⟨1, 2, 100, []⟩ [] (.readEof (some ⟨9, 2, 100⟩)) = .endedClean []
    ∧ sessionStep ⟨1, 2, 100, []⟩ [] (.readEof (some ⟨1, 2, 50⟩)) = .endedClean []
    ∧ sessionStep ⟨1, 2, 100, []⟩ [] (.readEof (some ⟨1, 2, 100⟩)) =
        .sleepPoll 1 ⟨1, 2, 100, []⟩ [] :=
  ⟨(eof_identity_check _ _ _).1 (Or.inl (by decide)),
   (eof_identity_check _ _ _).1 (Or.inr (Or.inr (by decide))),
   (eof_identity_check _ _ _).2.1 rfl rfl (by decide)⟩

/-- C3: a line whose envelope fails to decode, or whose envelope names the
supported model but whose full record fails to decode, is dropped with no
cache change; an envelope with a different model yields no record (not an
error) and no cache change; and a valid line processed right after any line
is still applied to the cache. -/
theorem parse_dispatch (c : Cache) (buf : List Nat) :
    (∀ e, recordBaseFromSlice buf = .error e →
      parse buf = .error e ∧ applyLine c buf = c)
    ∧ (∀ rb, recordBaseFromSlice buf = .ok rb → rb.model ≠ "Acurite-Tower" →
      parse buf = .ok none ∧ applyLine c buf = c)
    ∧ (∀ rb e, recordBaseFromSlice buf = .ok rb → rb.model = "Acurite-Tower" →
      recordAcuriteFromSlice buf = .error e →
      parse buf = .error e ∧ applyLine c buf = c)
    ∧ (∀ good r, parse good = .ok (some r) →
      applyLine (applyLine c buf) good =
        insertSorted (mkId r) r (applyLine c buf)) := by
  refine ⟨?_, ?_, ?_, ?_⟩
  · intro e he
    have hp : parse buf = .error e := by simp [parse, he]
    exact ⟨hp, by simp [applyLine, hp]⟩
  · intro rb hrb hne
    have hp : parse buf = .ok none := by simp [parse, hrb, hne]
    exact ⟨hp, by simp [applyLine, hp]⟩
  · intro rb e hrb heq hacu
    have hp : parse buf = .error e := by simp [parse, hrb, heq, hacu]
    exact ⟨hp, by simp [applyLine, hp]⟩
  · intro good r hg
    simp [applyLine, hg]

theorem parse_dispatch_witness :
    (parse exLineBad = .error "expected null" ∧ applyLine [] exLineBad = [])
    ∧ (parse exLineOther = .ok none ∧ applyLine [] exLineOther = [])
    ∧ (parse exLineTrunc = .error "missing field id"
        ∧ applyLine [] exLineTrunc = [])
    ∧ applyLine (applyLine [] exLineTrunc) exLine1 =
        insertSorted (mkId exRec1) exRec1 (applyLine [] exLineTrunc) :=
  ⟨(parse_dispatch [] exLineBad).1 "expected null" rfl,
   (parse_dispatch [] exLineOther).2.1 ⟨"t", "Other"⟩ rfl (by decide),
   (parse_dispatch [] exLineTrunc).2.2.1 ⟨"t", "Acurite-Tower"⟩
     "missing field id" rfl rfl rfl,
   (parse_dispatch [] exLineTrunc).2.2.2 exLine1 exRec1 rfl⟩

/-- C4: a fresh session on a file of length L starts reading at offset
L − 16384 when L exceeds 16384 bytes, and at offset 0 otherwise; in
particular at 3616 for L = 20000 and at 0 for L = 10000. -/
theorem initial_seek (md : Metadata) :
    (16384 < md.size →
      openSession (.ok md) = .ok ⟨md.dev, md.ino, md.size - 16384, []⟩)
    ∧ (md.size ≤ 16384 →
      openSession (.ok md) = .ok ⟨md.dev, md.ino, 0, []⟩) := by
  constructor
  · intro h
    have h1 : initialPos md.size = some (md.size - 16384) := by
      unfold initialPos checkedSub
      rw [if_pos (by omega), if_pos (by omega)]
    simp [openSession, h1]
  · intro h
    have h1 : initialPos md.size = some 0 := by
      unfold initialPos
      rw [if_neg (by omega)]
    simp [openSession, h1]

theorem initial_seek_witness :
    openSession (.ok ⟨7, 9, 20000⟩) = .ok ⟨7, 9, 3616, []⟩
    ∧ openSession (.ok ⟨7, 9, 10000⟩) = .ok ⟨7, 9, 0, []⟩ :=
  ⟨(initial_seek ⟨7, 9, 20000⟩).1 (by decide),
   (initial_seek ⟨7, 9, 10000⟩).2 (by decide)⟩

/-- C5: each newline byte flushes the accumulator to the parser as one
complete line (excluding the terminator) and clears it, every other byte is
appended; a chunk scan equals the spec-level split into completed lines plus
the trailing unterminated bytes, which never contain a newline and are never
handed to the parser; EOF-wait cycles preserve the session state unchanged;
and a fresh session always starts with an empty accumulator. -/
theorem line_reassembly (c c2 : Cache) (acc bytes : List Nat) (b : Nat)
    (s : Session) :
    (b = 10 → processByte (c, acc) b = (applyLine c acc, []))
    ∧ (b ≠ 10 → processByte (c, acc) b = (c, acc ++ [b]))
    ∧ processChunk c acc bytes =
        ((scanSpec acc bytes).1.foldl applyLine c, (scanSpec acc bytes).2)
    ∧ (10 ∉ acc → 10 ∉ (scanSpec acc bytes).2)
    ∧ (∀ md, sessionStep s c2 (.readEof (some md)) = .sleepPoll 1 s c2
        ∨ sessionStep s c2 (.readEof (some md)) = .endedClean c2)
    ∧ sessionStep s c2 (.readEof none) = .sleepPoll 1 s c2
    ∧ (∀ md s2, openSession (.ok md) = .ok s2 → s2.accum = []) := by
  refine ⟨?_, ?_, processChunk_scanSpec bytes c acc,
    scanSpec_no_newline bytes acc, ?_, rfl, ?_⟩
  · intro hb
    subst hb
    rfl
  · intro hb
    simp [processByte, hb]
  · intro md
    simp only [sessionStep]
    split
    · exact Or.inr rfl
    · exact Or.inl rfl
  · intro md s2 hopen
    simp only [openSession] at hopen
    cases hinit : initialPos md.size with
    | some p =>
      rw [hinit] at hopen
      have h2 : (⟨md.dev, md.ino, p, []⟩ : Session) = s2 :=
        Except.ok.inj hopen
      subst h2
      rfl
    | none =>
      rw [hinit] at hopen
      simp at hopen

theorem line_reassembly_witness :
    processByte ([], strBytes "ab") 10 = (applyLine [] (strBytes "ab"), [])
    ∧ processByte ([], strBytes "ab") 99 = ([], strBytes "ab" ++ [99])
    ∧ 10 ∉ (scanSpec [] (strBytes "ab")).2 :=
  ⟨(line_reassembly [] [] (strBytes "ab") [] 10 ⟨0, 0, 0, []⟩).1 rfl,
   (line_reassembly [] [] (strBytes "ab") [] 99 ⟨0, 0, 0, []⟩).2.1 (by decide),
   (line_reassembly [] [] [] (strBytes "ab") 99
     ⟨0, 0, 0, []⟩).2.2.2.1 (by decide)⟩

/-- C6: the cache holds at most one entry per id, upsert is replace-or-insert
with last-write-wins and never removes entries; feeding the two example
lines for id 5019 channel C in order leaves exactly one entry, holding the
second line's values. -/
theorem cache_upsert (c : Cache) (k : String) (v : RecordAcuriteTower) :
    (SortedKeys c → SortedKeys (insertSorted k v c))
    ∧ (k, v) ∈ insertSorted k v c
    ∧ (∀ k2 w, k2 ≠ k → ((k2, w) ∈ insertSorted k v c ↔ (k2, w) ∈ c))
    ∧ (SortedKeys c → ∀ k2 w w2, (k2, w) ∈ insertSorted k v c →
        (k2, w2) ∈ insertSorted k v c → w = w2)
    ∧ applyLine (applyLine [] exLine1) exLine2 =
        [("acurite-tower-00005019-c", exRec2)] := by
  refine ⟨insertSorted_sorted, insertSorted_mem_self, ?_, ?_, by rfl⟩
  · intro k2 w hne
    exact insertSorted_mem_other hne
  · intro hs k2 w w2 h1 h2
    exact sortedKeys_unique (insertSorted_sorted hs) h1 h2

theorem cache_upsert_witness :
    SortedKeys (insertSorted "b" exRec1 [("a", exRec1), ("c", exRec2)])
    ∧ ("b", exRec1) ∈ insertSorted "b" exRec1 [("a", exRec1), ("c", exRec2)]
    ∧ (("a", exRec1) ∈ insertSorted "b" exRec1 [("a", exRec1), ("c", exRec2)]
        ↔ ("a", exRec1) ∈ [("a", exRec1), ("c", exRec2)]) := by
  have hs : SortedKeys [("a", exRec1), ("c", exRec2)] := by
    refine List.pairwise_cons.mpr ⟨?_, List.pairwise_singleton _ _⟩
    intro a ha
    rw [List.mem_singleton.mp ha]
    exact key_lt_iff.mp (by decide)
  exact ⟨(cache_upsert [("a", exRec1), ("c", exRec2)] "b" exRec1).1 hs,
    (cache_upsert [("a", exRec1), ("c", exRec2)] "b" exRec1).2.1,
    (cache_upsert [("a", exRec1), ("c", exRec2)] "b" exRec1).2.2.1 "a" exRec1
      (by decide)⟩

/-- C7: whenever a session ends — cleanly or with an error — the supervisor
sleeps the fixed 2 s backoff and starts the next session, forever: the trace
of n iterations has length 2n, the k-th session appears at index 2k
regardless of any session's outcome, and it is immediately followed by a
2 s backoff. -/
theorem supervisor_restarts (f : Nat → SessionOutcome) (n k : Nat) :
    (supervisorTrace f n).length = 2 * n
    ∧ (k < n →
      (supervisorTrace f n)[2 * k]? = some (.session k (f k))
      ∧ (supervisorTrace f n)[2 * k + 1]? = some (.backoff 2)) :=
  ⟨supervisorTrace_length f n, supervisorTrace_getElem f n k⟩

theorem supervisor_restarts_witness :
    (supervisorTrace (fun j => if j = 0 then .err "open failed" else .ok) 3).length = 6
    ∧ (supervisorTrace (fun j => if j = 0 then .err "open failed" else .ok) 3)[2]? =
        some (.session 1 .ok)
    ∧ (supervisorTrace (fun j => if j = 0 then .err "open failed" else .ok) 3)[3]? =
        some (.backoff 2) :=
  ⟨(supervisor_restarts (fun j => if j = 0 then .err "open failed" else .ok) 3 1).1,
   ((supervisor_restarts (fun j => if j = 0 then .err "open failed" else .ok) 3 1).2
     (by decide)).1,
   ((supervisor_restarts (fun j => if j = 0 then .err "open failed" else .ok) 3 1).2
     (by decide)).2⟩

/-- C8: with no interleaved upserts, repeated snapshot calls return identical
sequences, and the sequence is a function of the cache contents alone: two
well-formed caches with the same entries yield the same snapshot. -/
theorem snapshot_deterministic (l l2 : Locked)
    (h : SortedKeys l.current) (h2 : SortedKeys l2.current)
    (hm : ∀ kv, kv ∈ l.current ↔ kv ∈ l2.current) :
    (values l).1 = (values l2).1
    ∧ (values ((values l).2)).1 = (values l).1 := by
  have he : l.current = l2.current := sortedKeys_ext _ _ h h2 hm
  exact ⟨by simp [values, he], rfl⟩

theorem snapshot_deterministic_witness :
    (values ⟨[("a", exRec1)]⟩).1 = (values ⟨insertSorted "a" exRec1 []⟩).1
    ∧ (values ((values ⟨[("a", exRec1)]⟩).2)).1 = (values ⟨[("a", exRec1)]⟩).1 :=
  snapshot_deterministic ⟨[("a", exRec1)]⟩ ⟨insertSorted "a" exRec1 []⟩
    (List.pairwise_singleton _ _) (List.pairwise_singleton _ _)
    (fun _ => Iff.rfl)

/-- C9: the snapshot operation returns a copy of the cache entries and is a
pure read: the cache state after the call is exactly the state before, and
the returned sequence equals the entries, so nothing done with the returned
value can reach back into the cache. -/
theorem snapshot_copy (l : Locked) :
    (values l).2 = l ∧ (values l).1 = l.current :=
  ⟨rfl, map_pair_eta l.current⟩

/-- C10: a newline arriving while the accumulator is empty invokes the parser
on the empty byte slice, whose envelope decode fails; the line is dropped as
a recovered error, the cache is unchanged, and the scan continues with an
empty accumulator. -/
theorem empty_line_recovered (c : Cache) :
    parse [] = .error "EOF while parsing a value"
    ∧ applyLine c [] = c
    ∧ processByte (c, []) 10 = (applyLine c [], [])
    ∧ processByte (c, []) 10 = (c, []) := by
  have hp : parse [] = .error "EOF while parsing a value" := rfl
  refine ⟨hp, ?_, rfl, ?_⟩
  · simp [applyLine, hp]
  · simp [processByte, applyLine, hp]

end TempExporter
